import Mathlib

/-!
Verification development for `src/tear_comparer.py` (class `TearCompare`).

The Python code is embedded shallowly:

* Python floats are idealized as exact rationals (`ℚ`);
* NaN entries of the `positions` array are `Option.none`;
* a Python `dict` is an insertion-ordered association list (`dictSet`,
  `dictGet` below reproduce `d[k] = v` and `d[k]`);
* Python object references are indices into an explicit heap (`PyHeap`),
  which is needed because `TearCompare.__init__` has the mutable default
  argument `database = {}`, a single object shared by every instance
  constructed without an explicit database;
* an uncaught Python exception is the `Except.error` case of a result.

Where the source reads a name that is not bound (`self.database`, `key` in
`compare_db`, `os`, `match_index` on one path) the embedding returns the
error the Python runtime would raise (`AttributeError` / `NameError`).
-/

/-- Error values the Python runtime raises while running `tear_comparer.py`. -/
inductive PyErr where
  | attributeError
  | nameError
  | valueError
  deriving DecidableEq, Repr

/-- Python dict assignment `d[k] = v`: an existing key keeps its position in
insertion order and gets the new value; a new key is appended at the end. -/
def dictSet {α : Type} (d : List (String × α)) (k : String) (v : α) :
    List (String × α) :=
  if d.any (fun p => p.1 == k) then
    d.map (fun p => if p.1 == k then (k, v) else p)
  else d ++ [(k, v)]

/-- Python dict lookup: `d[k]` when the key is present, `none` otherwise. -/
def dictGet {α : Type} (d : List (String × α)) (k : String) : Option α :=
  (d.find? (fun p => p.1 == k)).map (fun p => p.2)

/-- Iteration order of a Python dict: its keys in insertion order. -/
def dictKeys {α : Type} (d : List (String × α)) : List String :=
  d.map (fun p => p.1)

/-- Round to the nearest integer, halves to the nearest even integer: the
behaviour of `np.around` (floating point idealized as exact rationals). -/
def npAround (q : ℚ) : ℚ :=
  if q - ⌊q⌋ < 1/2 then (⌊q⌋ : ℚ)
  else if q - ⌊q⌋ > 1/2 then (⌊q⌋ : ℚ) + 1
  else if ⌊q⌋ % 2 = 0 then (⌊q⌋ : ℚ) else (⌊q⌋ : ℚ) + 1

/-- Arithmetic mean of a list of rationals: `np.mean` on a nonempty array. -/
def listMean (l : List ℚ) : ℚ := l.sum / l.length

/-- An edge image, stored column-major: entry `i` is the column
`edges[:, i]` as the list of its pixel values from row 0 downward. -/
abbrev EdgeMap := List (List ℕ)

/-- Row indices at which a column holds the pixel value 255:
`np.where(col == 255)`. -/
def whitePositions (col : List ℕ) : List ℕ :=
  (List.range col.length).filter (fun i => col.getD i 0 == 255)

/-- Mean white-pixel row of one column, rounded as by `np.around`; `none`
models the NaN that `np.mean` produces on an empty index set. -/
def colPosition (col : List ℕ) : Option ℚ :=
  let ws := whitePositions col
  if ws.isEmpty then none
  else some (npAround (listMean (ws.map (fun n => (n : ℚ)))))

/-- The `positions` list built by the first loop of
`get_edge_identity_vector`: one entry per column index below the processing
width `prep_scale[0]`. -/
def rawPositions (W : ℕ) (edges : EdgeMap) : List (Option ℚ) :=
  (List.range W).map (fun i => colPosition (edges.getD i []))

/-- Index/value pairs of the defined (non-NaN) entries, indices counted from
`s`: the arrays `non_nans(~nans)` and `positions[~nans]` zipped together. -/
def definedIdxPts : ℕ → List (Option ℚ) → List (ℕ × ℚ)
  | _, [] => []
  | s, none :: rest => definedIdxPts (s + 1) rest
  | s, some v :: rest => (s, v) :: definedIdxPts (s + 1) rest

/-- One query of `np.interp x xp fp`, the sample points given as pairs and,
as at every call site in the source, with integer sample positions and an
integer query: left of the first sample point the first value, right of the
last sample point the last value, linear interpolation between consecutive
sample points. -/
def interpPts (x : ℕ) : List (ℕ × ℚ) → ℚ
  | [] => 0
  | [(_, f0)] => f0
  | (x0, f0) :: (x1, f1) :: rest =>
    if x ≤ x0 then f0
    else if x ≤ x1 then f0 + (f1 - f0) * ((x : ℚ) - (x0 : ℚ)) / ((x1 : ℚ) - (x0 : ℚ))
    else interpPts x ((x1, f1) :: rest)

/-- Gap filling, lines 88-89 of the source: `positions[nans] =
np.interp(non_nans(nans), non_nans(~nans), positions[~nans])`. Defined
entries keep their value; NaN entries are replaced by `np.interp` at their
own index, the sample points being `definedIdxPts 0 positions`. When every
entry is NaN, `positions[~nans]` is empty and `np.interp` raises
`ValueError: array of sample points is empty`; that failure is the `none`
case. -/
def fillNans (positions : List (Option ℚ)) : Option (List ℚ) :=
  if (definedIdxPts 0 positions).isEmpty then none
  else some ((List.range positions.length).map (fun i =>
    match positions.getD i none with
    | some v => v
    | none => interpPts i (definedIdxPts 0 positions)))

/-- Shallow embedding of `TearCompare.get_edge_identity_vector` (lines 69-108
of `src/tear_comparer.py`): per-column mean white-pixel rows, NaN
interpolation, centering on the mean (the inner map is `final_array`, with
`listMean filled` as `mean_y_coord`), and division by `self.prep_scale[0]`.
The `ValueError` raised by `np.interp` when every column is NaN is the
error case. -/
def get_edge_identity_vector (prep_scale : ℕ × ℕ) (edges : EdgeMap) :
    Except PyErr (List ℚ) :=
  match fillNans (rawPositions prep_scale.1 edges) with
  | none => .error .valueError
  | some filled =>
    .ok (((List.range prep_scale.1).map
        (fun i => filled.getD i 0 - listMean filled)).map
      (fun d => d / (prep_scale.1 : ℚ)))

/-- Index `j` is the nearest defined (non-NaN) entry strictly left of `i` in
the profile. -/
def nearestDefLeft (pos : List (Option ℚ)) (i j : ℕ) : Prop :=
  j < i ∧ (pos.getD j none).isSome ∧ ∀ m, j < m → m < i → pos.getD m none = none

/-- Index `k` is the nearest defined (non-NaN) entry strictly right of `i`. -/
def nearestDefRight (pos : List (Option ℚ)) (i k : ℕ) : Prop :=
  i < k ∧ k < pos.length ∧ (pos.getD k none).isSome ∧
    ∀ m, i < m → m < k → pos.getD m none = none

/-- Value stored at a defined index of the profile. -/
def valAt (pos : List (Option ℚ)) (j : ℕ) : ℚ := (pos.getD j none).getD 0

/-- Formulated from the spec's words for claim C5: defined entries keep their
value; an undefined entry with defined neighbors on both sides becomes the
1-D linear interpolation between the nearest defined neighbors; an undefined
entry with defined entries on one side only takes the nearest defined value
(boundary extrapolation). -/
def specLinearFill (pos : List (Option ℚ)) (filled : List ℚ) : Prop :=
  filled.length = pos.length ∧
  (∀ i v, pos.getD i none = some v → filled.getD i 0 = v) ∧
  (∀ i j k, i < pos.length → pos.getD i none = none →
    nearestDefLeft pos i j → nearestDefRight pos i k →
    filled.getD i 0
      = valAt pos j
        + (valAt pos k - valAt pos j) * ((i : ℚ) - (j : ℚ)) / ((k : ℚ) - (j : ℚ))) ∧
  (∀ i k, i < pos.length → pos.getD i none = none →
    (∀ m, m < i → pos.getD m none = none) → nearestDefRight pos i k →
    filled.getD i 0 = valAt pos k) ∧
  (∀ i j, i < pos.length → pos.getD i none = none →
    nearestDefLeft pos i j →
    (∀ m, i < m → m < pos.length → pos.getD m none = none) →
    filled.getD i 0 = valAt pos j)

/-- A signature collection: a Python dict from entry name to signature. -/
abbrev DB := List (String × List ℚ)

/-- The heap of dict objects, addressed by index. Python variables hold
references; `TearCompare.__init__` has the mutable default argument
`database = {}`, one object created when the class statement runs and
aliased by every instance constructed without an explicit database. -/
structure PyHeap where
  cells : List DB
  deriving DecidableEq, Repr

/-- Dereference a dict object. -/
def PyHeap.read (h : PyHeap) (r : ℕ) : DB := h.cells.getD r []

/-- Mutate a dict object in place. -/
def PyHeap.write (h : PyHeap) (r : ℕ) (d : DB) : PyHeap := ⟨h.cells.set r d⟩

/-- One `TearCompare` instance: `self.db` is a reference into the heap;
`self.prep_scale` is a value, and `self.matches` is a dict created fresh for
every instance and never aliased, so it is held by value (`matches` is a
reserved word in Lean, hence the field name `matchesDict`). -/
structure TearCompare where
  dbRef : ℕ
  prep_scale : ℕ × ℕ
  matchesDict : List (String × String)
  deriving DecidableEq, Repr

/-- The single default `database = {}` object, evaluated once when the class
statement runs: heap cell 0. -/
def classDefaultRef : ℕ := 0

/-- Heap at interpreter start: only the class's default-argument dict. -/
def initialHeap : PyHeap := ⟨[[]]⟩

/-- Embedding of `TearCompare.__init__` (lines 29-32): an instance built
without an explicit `database` argument aliases the shared default dict. -/
def TearCompare.new (dbArg : Option ℕ) (prep_scale : ℕ × ℕ) : TearCompare :=
  { dbRef := dbArg.getD classDefaultRef, prep_scale := prep_scale, matchesDict := [] }

/-- Squared Euclidean distance between two signatures. The source computes
`abs(np.linalg.norm(x - y))`, the nonnegative square root of this value;
minimum selection and first-index lookup of the minimum are invariant under
the strictly monotone square root (and `abs` is the identity on it), so the
model compares squared norms, keeping the arithmetic exact in `ℚ`. -/
def dist2 (x y : List ℚ) : ℚ := ((x.zip y).map (fun p => (p.1 - p.2) ^ 2)).sum

/-- Index of the first occurrence of the minimum of a list —
`dist_list.index(dist_array.min())` in the source; `none` when the list is
empty, where `dist_array.min()` raises and the `except` clause swallows the
failure. -/
def firstMinIdx : List ℚ → Option ℕ
  | [] => none
  | x :: xs =>
    match firstMinIdx xs with
    | none => some 0
    | some j => if x ≤ xs.getD j 0 then some 0 else some (j + 1)

/-- The exact string `compare_with_db` returns when the database is empty. -/
def emptyDbNotice : String := "Database empty, no matches found"

/-- Embedding of `TearCompare.build_db` (lines 155-163): extract the
identity vector (the edge map stands for the output of the external
`cv2`-based `image_prep`) and store it under `entry_name`; an extraction
error propagates, and nothing else changes. -/
def build_db (h : PyHeap) (t : TearCompare) (edges : EdgeMap)
    (entry_name : String) : Except PyErr (PyHeap × TearCompare) :=
  match get_edge_identity_vector t.prep_scale edges with
  | .error e => .error e
  | .ok id_vector =>
    .ok (h.write t.dbRef (dictSet (h.read t.dbRef) entry_name id_vector), t)

/-- Embedding of `TearCompare.compare_with_db` (lines 110-153) as written:
after extracting the identity vector the method executes
`for key in self.database`, but the instance has no attribute `database`
(`__init__` stores the constructor's `database` parameter in `self.db`), so
every call raises `AttributeError` there, before any state is touched. -/
def compare_with_db (h : PyHeap) (t : TearCompare) (edges : EdgeMap)
    (entry_name : String) (add_vector_to_db : Bool) :
    Except PyErr (String × PyHeap × TearCompare) :=
  match get_edge_identity_vector t.prep_scale edges with
  | .error e => .error e
  | .ok _ => .error .attributeError

/-- The method `compare_with_db` with its one name slip repaired:
`self.database` read as the `self.db` attribute that `__init__` binds (the
docstring and the loop body make that intent plain). Everything else follows
lines 110-153 exactly: distances to every stored signature in insertion
order, minimum selection in a `try` block with first-occurrence index
lookup, bidirectional match recording, insertion of the new vector after
the comparison, and the final return that reads `keys[match_index]`
whenever `len(self.db) != 0` — which on the empty-database path with
`add_vector_to_db = True` raises `NameError`, because `match_index` was
never assigned. -/
def compare_with_db_fixed (h : PyHeap) (t : TearCompare) (edges : EdgeMap)
    (entry_name : String) (add_vector_to_db : Bool) :
    Except PyErr (String × PyHeap × TearCompare) :=
  match get_edge_identity_vector t.prep_scale edges with
  | .error e => .error e
  | .ok id_vector =>
    match firstMinIdx ((h.read t.dbRef).map (fun kv => dist2 id_vector kv.2)) with
    | some mi =>
      .ok ((dictKeys (h.read t.dbRef)).getD mi "",
        (if add_vector_to_db then
          h.write t.dbRef (dictSet (h.read t.dbRef) entry_name id_vector)
        else h),
        { t with matchesDict :=
            (dictSet (dictSet t.matchesDict entry_name
                ((dictKeys (h.read t.dbRef)).getD mi ""))
              ((dictKeys (h.read t.dbRef)).getD mi "") entry_name) })
    | none =>
      if ((if add_vector_to_db then
            h.write t.dbRef (dictSet (h.read t.dbRef) entry_name id_vector)
          else h).read t.dbRef).length ≠ 0 then
        .error .nameError
      else
        .ok (emptyDbNotice,
          (if add_vector_to_db then
            h.write t.dbRef (dictSet (h.read t.dbRef) entry_name id_vector)
          else h), t)

/-- Embedding of `TearCompare.compare_db` (lines 165-198) as written: its
first statement `for key1 in self.database` reads the nonexistent attribute
`database`, so every call raises `AttributeError` and no state changes. -/
def compare_db (h : PyHeap) (t : TearCompare) :
    Except PyErr (PyHeap × TearCompare) :=
  .error .attributeError

/-- The method `compare_db` with only the `self.database` slip repaired to
`self.db`: the outer loop then runs, and for the first unmatched `key1` that
meets a `key2 ≠ key1` the inner loop body executes `keys.append(key)` —
`key` is a name bound nowhere in this method, a `NameError`. When no such
pair exists (in particular whenever the database has fewer than two
entries), the inner body never runs, the empty `dist_array.min()` raises
inside the `try` and is swallowed, and the method returns with no state
change at all. -/
def compare_db_db_repaired (h : PyHeap) (t : TearCompare) :
    Except PyErr (PyHeap × TearCompare) :=
  if (dictKeys (h.read t.dbRef)).any (fun k1 =>
      !(t.matchesDict.any (fun p => p.1 == k1))
        && (dictKeys (h.read t.dbRef)).any (fun k2 => !(k2 == k1))) then
    .error .nameError
  else .ok (h, t)

/-- An on-disk blob: the object a `pickle.dump` call wrote. -/
inductive Blob where
  | dbBlob (d : DB)
  | matchesBlob (m : List (String × String))
  deriving DecidableEq, Repr

/-- The file system as seen through `open` and `pickle`: a dict from path to
blob. -/
abbrev FileSys := List (String × Blob)

/-- Embedding of `TearCompare.save_matches` (lines 222-231) as written: the
first statement calls `os.path.exists`, but the module never imports `os`,
so every call raises `NameError` before any file is touched. -/
def save_matches (fs : FileSys) (h : PyHeap) (t : TearCompare)
    (dict_file : String) : Except PyErr FileSys :=
  .error .nameError

/-- The body of `save_matches` (lines 227-231) that would run if the missing
`import os` were supplied: create the file if absent, then overwrite it —
with `pickle.dump(self.db, f, ...)`, i.e. the signature collection, not
`self.matches`. -/
def save_matches_with_os (fs : FileSys) (h : PyHeap) (t : TearCompare)
    (dict_file : String) : FileSys :=
  dictSet fs dict_file (.dbBlob (h.read t.dbRef))

/-- Symmetry of the match dict, as the spec states it: every recorded pair
is present in both directions. -/
def matchesSymmetric (m : List (String × String)) : Prop :=
  ∀ a b, dictGet m a = some b → dictGet m b = some a

theorem range_map_getD (l : List ℚ) :
    (List.range l.length).map (fun i => l.getD i 0) = l := by
  induction l with
  | nil => rfl
  | cons x xs ih =>
    rw [List.length_cons, List.range_succ_eq_map, List.map_cons, List.map_map]
    have hc : ((fun i => (x :: xs).getD i 0) ∘ Nat.succ) = fun i => xs.getD i 0 := by
      funext i
      simp
    rw [hc, ih]
    simp

theorem range_map_getD_comp (l : List ℚ) (g : ℚ → ℚ) :
    (List.range l.length).map (fun i => g (l.getD i 0)) = l.map g := by
  have h := congrArg (List.map g) (range_map_getD l)
  simpa [List.map_map, Function.comp] using h

theorem fillNans_length (pos : List (Option ℚ)) (filled : List ℚ)
    (h : fillNans pos = some filled) : filled.length = pos.length := by
  unfold fillNans at h
  split at h
  · simp at h
  · have he := Option.some.inj h
    subst he
    simp

theorem sum_map_div (l : List ℚ) (c : ℚ) :
    (l.map (fun x => x / c)).sum = l.sum / c := by
  induction l with
  | nil => simp
  | cons x xs ih => simp [ih, add_div]

theorem sum_map_sub_const (l : List ℚ) (m : ℚ) :
    (l.map (fun x => x - m)).sum = l.sum - l.length * m := by
  induction l with
  | nil => simp
  | cons x xs ih =>
    simp only [List.map_cons, List.sum_cons, ih, List.length_cons]
    push_cast
    ring

/-- Successful extraction characterized: the result is the filled profile,
centered on its own mean and divided by the processing width. -/
theorem get_edge_ok_eq (prep_scale : ℕ × ℕ) (edges : EdgeMap) (sig : List ℚ)
    (h : get_edge_identity_vector prep_scale edges = .ok sig) :
    ∃ filled, fillNans (rawPositions prep_scale.1 edges) = some filled ∧
      filled.length = prep_scale.1 ∧
      sig = filled.map (fun v => (v - listMean filled) / (prep_scale.1 : ℚ)) := by
  unfold get_edge_identity_vector at h
  split at h
  · simp at h
  · rename_i filled hf
    have hlen : filled.length = prep_scale.1 := by
      have hl := fillNans_length _ _ hf
      simpa [rawPositions] using hl
    refine ⟨filled, hf, hlen, ?_⟩
    have hsig := (Except.ok.inj h).symm
    rw [hsig, List.map_map,
      ← range_map_getD_comp filled (fun v => (v - listMean filled) / (prep_scale.1 : ℚ)),
      hlen]
    simp [Function.comp]

/-- Claim C1: for every edge map the extractor accepts, the signature
returned by `get_edge_identity_vector` is the filled displacement profile
with the profile's arithmetic mean subtracted from every entry and every
entry then divided by the configured processing width `prep_scale.1`. -/
theorem c1_signature_centered_profile_div_width (prep_scale : ℕ × ℕ)
    (edges : EdgeMap) (sig : List ℚ)
    (h : get_edge_identity_vector prep_scale edges = .ok sig) :
    ∃ filled, fillNans (rawPositions prep_scale.1 edges) = some filled ∧
      sig = filled.map (fun v => (v - listMean filled) / (prep_scale.1 : ℚ)) := by
  obtain ⟨filled, hf, _, hs⟩ := get_edge_ok_eq prep_scale edges sig h
  exact ⟨filled, hf, hs⟩

theorem colPosition_eval_top : colPosition [255, 0, 0] = some 0 := by
  rw [colPosition, show whitePositions [255, 0, 0] = [0] from by decide]
  norm_num [listMean, npAround]

theorem colPosition_eval_bot : colPosition [0, 0, 255] = some 2 := by
  rw [colPosition, show whitePositions [0, 0, 255] = [2] from by decide]
  norm_num [listMean, npAround]

theorem colPosition_eval_mid : colPosition [0, 255, 0] = some 1 := by
  rw [colPosition, show whitePositions [0, 255, 0] = [1] from by decide]
  norm_num [listMean, npAround]

theorem colPosition_eval_blank : colPosition [0, 0, 0] = none := by
  rw [colPosition, show whitePositions [0, 0, 0] = [] from by decide]
  simp

theorem get_edge_eval_up :
    get_edge_identity_vector (2, 3) [[255, 0, 0], [0, 0, 255]]
      = .ok [-(1 : ℚ)/2, 1/2] := by
  norm_num [get_edge_identity_vector, rawPositions, fillNans, definedIdxPts,
    listMean, interpPts, colPosition_eval_top, colPosition_eval_bot,
    show List.range 2 = [0, 1] from by decide]

theorem c1_witness :
    get_edge_identity_vector (2, 3) [[255, 0, 0], [0, 0, 255]]
        = .ok [-(1 : ℚ)/2, 1/2] ∧
      ∃ filled, fillNans (rawPositions 2 [[255, 0, 0], [0, 0, 255]]) = some filled ∧
        [-(1 : ℚ)/2, 1/2] = filled.map (fun v => (v - listMean filled) / ((2 : ℕ) : ℚ)) :=
  ⟨get_edge_eval_up,
    c1_signature_centered_profile_div_width (2, 3) [[255, 0, 0], [0, 0, 255]]
      [-(1 : ℚ)/2, 1/2] get_edge_eval_up⟩

/-- Claim C8: after the centering step the displacement array has mean 0, so
the entries of every returned signature sum to 0 (exactly, in the rational
idealization of floating point). -/
theorem c8_signature_sums_to_zero (prep_scale : ℕ × ℕ) (edges : EdgeMap)
    (sig : List ℚ) (h : get_edge_identity_vector prep_scale edges = .ok sig) :
    sig.sum = 0 := by
  obtain ⟨filled, _, _, hs⟩ := get_edge_ok_eq prep_scale edges sig h
  subst hs
  have hmap : filled.map (fun v => (v - listMean filled) / (prep_scale.1 : ℚ))
      = (filled.map (fun v => v - listMean filled)).map
          (fun x => x / (prep_scale.1 : ℚ)) := by
    simp [List.map_map, Function.comp]
  rw [hmap, sum_map_div, sum_map_sub_const]
  rcases eq_or_ne filled [] with rfl | hne
  · simp
  · have hl : (filled.length : ℚ) ≠ 0 := by
      simpa using (List.length_pos.2 hne).ne'
    have hm : (filled.length : ℚ) * listMean filled = filled.sum := by
      rw [listMean]
      field_simp
    rw [hm, sub_self, zero_div]

theorem get_edge_eval_midbot :
    get_edge_identity_vector (2, 3) [[0, 255, 0], [0, 0, 255]]
      = .ok [-(1 : ℚ)/4, 1/4] := by
  norm_num [get_edge_identity_vector, rawPositions, fillNans, definedIdxPts,
    listMean, interpPts, colPosition_eval_mid, colPosition_eval_bot,
    show List.range 2 = [0, 1] from by decide]

theorem c8_witness :
    get_edge_identity_vector (2, 3) [[0, 255, 0], [0, 0, 255]]
        = .ok [-(1 : ℚ)/4, 1/4] ∧
      ([-(1 : ℚ)/4, 1/4] : List ℚ).sum = 0 :=
  ⟨get_edge_eval_midbot,
    c8_signature_sums_to_zero (2, 3) [[0, 255, 0], [0, 0, 255]]
      [-(1 : ℚ)/4, 1/4] get_edge_eval_midbot⟩

theorem interpPts_head_le (x x0 : ℕ) (f0 : ℚ) (rest : List (ℕ × ℚ)) (h : x ≤ x0) :
    interpPts x ((x0, f0) :: rest) = f0 := by
  cases rest with
  | nil => rfl
  | cons q rest' =>
    cases q with
    | mk x1 f1 => simp [interpPts, h]

theorem interpPts_last (x : ℕ) (pts : List (ℕ × ℚ)) :
    ∀ (j : ℕ) (vj : ℚ), pts.getLast? = some (j, vj) →
      (∀ p ∈ pts, p.1 < x) → interpPts x pts = vj := by
  induction pts with
  | nil =>
    intro j vj h _
    simp at h
  | cons p rest ih =>
    intro j vj hlast hall
    cases rest with
    | nil =>
      cases p with
      | mk a b =>
        simp only [List.getLast?_singleton, Option.some.injEq, Prod.mk.injEq] at hlast
        simp [interpPts, hlast.2]
    | cons q rest' =>
      cases p with
      | mk x0 f0 =>
        cases q with
        | mk x1 f1 =>
          have h0 : x0 < x := hall (x0, f0) (by simp)
          have h1 : x1 < x := hall (x1, f1) (by simp)
          rw [List.getLast?_cons_cons] at hlast
          simp only [interpPts]
          rw [if_neg (by omega), if_neg (by omega)]
          exact ih j vj hlast (fun p hp => hall p (by simp [hp]))

theorem interpPts_adjacent (x j k : ℕ) (vj vk : ℚ) (b : List (ℕ × ℚ))
    (a : List (ℕ × ℚ)) :
    (∀ p ∈ a, p.1 < x) → j < x → x ≤ k →
    interpPts x (a ++ (j, vj) :: (k, vk) :: b)
      = vj + (vk - vj) * ((x : ℚ) - (j : ℚ)) / ((k : ℚ) - (j : ℚ)) := by
  induction a with
  | nil =>
    intro _ hj hk
    simp only [List.nil_append, interpPts]
    rw [if_neg (by omega), if_pos hk]
  | cons p a' ih =>
    intro hall hj hk
    obtain ⟨x0, f0⟩ := p
    have h0 : x0 < x := hall (x0, f0) (by simp)
    have hne : a' ++ (j, vj) :: (k, vk) :: b ≠ [] := by simp
    obtain ⟨⟨x1, f1⟩, rest2, ha⟩ := List.exists_cons_of_ne_nil hne
    have h1 : x1 < x := by
      cases a' with
      | nil =>
        rw [List.nil_append] at ha
        injection ha with ha1 _
        injection ha1 with hx _
        omega
      | cons r a'' =>
        rw [List.cons_append] at ha
        injection ha with ha1 _
        have hr := hall r (by simp)
        rw [ha1] at hr
        exact hr
    rw [List.cons_append, ha]
    simp only [interpPts]
    rw [if_neg (by omega), if_neg (by omega), ← ha]
    exact ih (fun p hp => hall p (by simp [hp])) hj hk

theorem definedIdxPts_append (l1 l2 : List (Option ℚ)) (s : ℕ) :
    definedIdxPts s (l1 ++ l2)
      = definedIdxPts s l1 ++ definedIdxPts (s + l1.length) l2 := by
  induction l1 generalizing s with
  | nil => simp [definedIdxPts]
  | cons x rest ih =>
    have harith : s + 1 + rest.length = s + (rest.length + 1) := by omega
    cases x with
    | none =>
      simp only [List.cons_append, definedIdxPts, List.length_cons, List.append_eq]
      rw [ih (s + 1), harith]
    | some v =>
      simp only [List.cons_append, definedIdxPts, List.length_cons, List.append_eq]
      rw [ih (s + 1), harith]

theorem definedIdxPts_allNone (l : List (Option ℚ)) (s : ℕ)
    (h : ∀ x ∈ l, x = none) : definedIdxPts s l = [] := by
  induction l generalizing s with
  | nil => rfl
  | cons x rest ih =>
    have hx : x = none := h x (by simp)
    subst hx
    simp only [definedIdxPts]
    exact ih (s + 1) (fun y hy => h y (by simp [hy]))

theorem definedIdxPts_nil_iff (l : List (Option ℚ)) : ∀ s : ℕ,
    (definedIdxPts s l = [] ↔ ∀ x ∈ l, x = none) := by
  induction l with
  | nil =>
    intro s
    simp [definedIdxPts]
  | cons y rest ih =>
    intro s
    cases y with
    | none =>
      simp only [definedIdxPts]
      rw [ih (s + 1)]
      constructor
      · intro h x hx
        rcases List.mem_cons.1 hx with rfl | hx'
        · rfl
        · exact h x hx'
      · intro h x hx
        exact h x (List.mem_cons_of_mem _ hx)
    | some v =>
      simp only [definedIdxPts]
      constructor
      · intro h
        simp at h
      · intro h
        have hv := h (some v) (by simp)
        simp at hv

theorem definedIdxPts_fst_bounds (l : List (Option ℚ)) : ∀ (s : ℕ) (p : ℕ × ℚ),
    p ∈ definedIdxPts s l → s ≤ p.1 ∧ p.1 < s + l.length := by
  induction l with
  | nil =>
    intro s p hp
    simp [definedIdxPts] at hp
  | cons y rest ih =>
    intro s p hp
    cases y with
    | none =>
      simp only [definedIdxPts] at hp
      have := ih (s + 1) p hp
      simp only [List.length_cons]
      omega
    | some v =>
      simp only [definedIdxPts, List.mem_cons] at hp
      rcases hp with rfl | hp'
      · simp only [List.length_cons]
        omega
      · have := ih (s + 1) p hp'
        simp only [List.length_cons]
        omega

theorem take_all_none (l : List (Option ℚ)) (t : ℕ)
    (hnone : ∀ m, m < t → l.getD m none = none) : ∀ x ∈ l.take t, x = none := by
  intro x hx
  obtain ⟨m, hm⟩ := List.mem_iff_getElem?.1 hx
  rw [List.getElem?_take] at hm
  by_cases hmt : m < t
  · rw [if_pos hmt] at hm
    have hd := hnone m hmt
    rw [List.getD_eq_getElem?_getD, hm] at hd
    simpa using hd
  · rw [if_neg hmt] at hm
    cases hm

theorem drop_all_none (l : List (Option ℚ)) (t : ℕ)
    (hnone : ∀ m, t ≤ m → m < l.length → l.getD m none = none) :
    ∀ x ∈ l.drop t, x = none := by
  intro x hx
  obtain ⟨m, hm⟩ := List.mem_iff_getElem?.1 hx
  rw [List.getElem?_drop] at hm
  have hlt : t + m < l.length := by
    by_contra hge
    rw [List.getElem?_eq_none (by omega)] at hm
    cases hm
  have hd := hnone (t + m) (by omega) hlt
  rw [List.getD_eq_getElem?_getD, hm] at hd
  simpa using hd

theorem definedIdxPts_decomp_at (pos : List (Option ℚ)) (j : ℕ) (vj : ℚ)
    (hj : j < pos.length) (hpj : pos.getD j none = some vj) :
    definedIdxPts 0 pos
      = definedIdxPts 0 (pos.take j)
        ++ (j, vj) :: definedIdxPts (j + 1) (pos.drop (j + 1)) := by
  have hjget : pos[j]? = some (some vj) := by
    rw [List.getElem?_eq_getElem hj]
    rw [List.getD_eq_getElem _ _ hj] at hpj
    rw [hpj]
  have hlen1 : (pos.take j).length = j := List.length_take_of_le (by omega)
  conv_lhs => rw [← List.take_append_drop (j + 1) pos]
  rw [definedIdxPts_append, List.take_succ, hjget]
  rw [definedIdxPts_append]
  simp only [Option.toList_some, hlen1, Nat.zero_add, List.length_append,
    List.length_take, List.length_cons, List.length_nil]
  have hmin : min (j + 1) pos.length = j + 1 := by omega
  simp only [definedIdxPts, hmin]
  rw [List.append_assoc]
  simp

theorem definedIdxPts_skip_head (l : List (Option ℚ)) (s t : ℕ) (vk : ℚ)
    (ht : t < l.length) (hv : l.getD t none = some vk)
    (hnone : ∀ m, m < t → l.getD m none = none) :
    definedIdxPts s l
      = (s + t, vk) :: definedIdxPts (s + t + 1) (l.drop (t + 1)) := by
  have hlen : (l.take t).length = t := List.length_take_of_le ht.le
  have hdrop : l.drop t = some vk :: l.drop (t + 1) := by
    rw [List.drop_eq_getElem_cons ht]
    rw [List.getD_eq_getElem _ _ ht] at hv
    rw [hv]
  conv_lhs => rw [← List.take_append_drop t l]
  rw [definedIdxPts_append, definedIdxPts_allNone _ _ (take_all_none l t hnone),
    hdrop, hlen]
  simp [definedIdxPts]

theorem definedIdxPts_both (pos : List (Option ℚ)) (j k : ℕ) (vj vk : ℚ)
    (hj : j < pos.length) (hk : k < pos.length) (hjk : j < k)
    (hpj : pos.getD j none = some vj) (hpk : pos.getD k none = some vk)
    (hmid : ∀ m, j < m → m < k → pos.getD m none = none) :
    definedIdxPts 0 pos
      = definedIdxPts 0 (pos.take j)
        ++ (j, vj) :: (k, vk) :: definedIdxPts (k + 1) (pos.drop (k + 1)) := by
  rw [definedIdxPts_decomp_at pos j vj hj hpj]
  have h1 : k - (j + 1) < (pos.drop (j + 1)).length := by
    rw [List.length_drop]
    omega
  have h2 : (pos.drop (j + 1)).getD (k - (j + 1)) none = some vk := by
    rw [List.getD_eq_getElem?_getD, List.getElem?_drop]
    have he : j + 1 + (k - (j + 1)) = k := by omega
    rw [he, ← List.getD_eq_getElem?_getD]
    exact hpk
  have h3 : ∀ m, m < k - (j + 1) → (pos.drop (j + 1)).getD m none = none := by
    intro m hm
    rw [List.getD_eq_getElem?_getD, List.getElem?_drop, ← List.getD_eq_getElem?_getD]
    exact hmid (j + 1 + m) (by omega) (by omega)
  have hskip := definedIdxPts_skip_head (pos.drop (j + 1)) (j + 1) (k - (j + 1)) vk h1 h2 h3
  have e1 : j + 1 + (k - (j + 1)) = k := by omega
  have e2 : (pos.drop (j + 1)).drop (k - (j + 1) + 1) = pos.drop (k + 1) := by
    rw [List.drop_drop]
    congr 1
    omega
  rw [hskip, e1, e2]

theorem getD_map_range (f : ℕ → ℚ) (n i : ℕ) (h : i < n) :
    ((List.range n).map f).getD i 0 = f i := by
  rw [List.getD_eq_getElem?_getD, List.getElem?_map, List.getElem?_range h]
  rfl

theorem getD_isSome_lt (pos : List (Option ℚ)) (j : ℕ)
    (h : (pos.getD j none).isSome) : j < pos.length := by
  by_contra hge
  rw [List.getD_eq_getElem?_getD, List.getElem?_eq_none (by omega)] at h
  simp at h

theorem fillNans_getD_eq (pos : List (Option ℚ)) (filled : List ℚ)
    (h : fillNans pos = some filled) (i : ℕ) (hi : i < pos.length) :
    filled.getD i 0 = match pos.getD i none with
      | some v => v
      | none => interpPts i (definedIdxPts 0 pos) := by
  unfold fillNans at h
  split at h
  · simp at h
  · have he := Option.some.inj h
    subst he
    exact getD_map_range _ _ _ hi

/-- The gap filling performed by `fillNans` satisfies the spec's description
of linear interpolation with nearest-value boundary extrapolation. -/
theorem fillNans_specLinearFill (pos : List (Option ℚ)) (filled : List ℚ)
    (h : fillNans pos = some filled) : specLinearFill pos filled := by
  refine ⟨fillNans_length pos filled h, ?_, ?_, ?_, ?_⟩
  · intro i v hv
    have hi : i < pos.length := getD_isSome_lt pos i (by rw [hv]; rfl)
    rw [fillNans_getD_eq pos filled h i hi, hv]
  · intro i j k hi hnan hL hR
    obtain ⟨hji, hjs, hjmid⟩ := hL
    obtain ⟨hik, hklt, hks, hkmid⟩ := hR
    obtain ⟨vj, hvj⟩ := Option.isSome_iff_exists.1 hjs
    obtain ⟨vk, hvk⟩ := Option.isSome_iff_exists.1 hks
    have hjlt : j < pos.length := getD_isSome_lt pos j hjs
    have hmid : ∀ m, j < m → m < k → pos.getD m none = none := by
      intro m hm1 hm2
      rcases Nat.lt_trichotomy m i with hmi | rfl | him
      · exact hjmid m hm1 hmi
      · exact hnan
      · exact hkmid m him hm2
    rw [fillNans_getD_eq pos filled h i hi, hnan]
    rw [definedIdxPts_both pos j k vj vk hjlt hklt (by omega) hvj hvk hmid]
    rw [interpPts_adjacent i j k vj vk _ _ ?_ hji (by omega)]
    · simp only [valAt]
      rw [hvj, hvk]
      simp
    · intro p hp
      have hb := definedIdxPts_fst_bounds (pos.take j) 0 p hp
      have : (pos.take j).length = j := List.length_take_of_le (by omega)
      omega
  · intro i k hi hnan hbelow hR
    obtain ⟨hik, hklt, hks, hkmid⟩ := hR
    obtain ⟨vk, hvk⟩ := Option.isSome_iff_exists.1 hks
    have hall : ∀ m, m < k → pos.getD m none = none := by
      intro m hm
      rcases Nat.lt_trichotomy m i with hmi | rfl | him
      · exact hbelow m hmi
      · exact hnan
      · exact hkmid m him hm
    rw [fillNans_getD_eq pos filled h i hi, hnan]
    rw [definedIdxPts_skip_head pos 0 k vk hklt hvk hall]
    rw [Nat.zero_add]
    rw [interpPts_head_le i k vk _ (by omega)]
    simp only [valAt]
    rw [hvk]
    simp
  · intro i j hi hnan hL habove
    obtain ⟨hji, hjs, hjmid⟩ := hL
    obtain ⟨vj, hvj⟩ := Option.isSome_iff_exists.1 hjs
    have hjlt : j < pos.length := getD_isSome_lt pos j hjs
    have hup : ∀ m, j + 1 ≤ m → m < pos.length → pos.getD m none = none := by
      intro m hm1 hm2
      rcases Nat.lt_trichotomy m i with hmi | rfl | him
      · exact hjmid m (by omega) hmi
      · exact hnan
      · exact habove m him hm2
    have hdropnil : definedIdxPts (j + 1) (pos.drop (j + 1)) = [] := by
      apply definedIdxPts_allNone
      exact drop_all_none pos (j + 1) hup
    rw [fillNans_getD_eq pos filled h i hi, hnan]
    rw [definedIdxPts_decomp_at pos j vj hjlt hvj, hdropnil]
    rw [interpPts_last i (definedIdxPts 0 (pos.take j) ++ [(j, vj)]) j vj
      (List.getLast?_concat _) ?_]
    · simp only [valAt]
      rw [hvj]
      simp
    · intro p hp
      rcases List.mem_append.1 hp with hpA | hpJ
      · have hb := definedIdxPts_fst_bounds (pos.take j) 0 p hpA
        have : (pos.take j).length = j := List.length_take_of_le (by omega)
        omega
      · have : p = (j, vj) := by simpa using hpJ
        rw [this]
        exact hji

theorem colPosition_none_iff (c : List ℕ) :
    colPosition c = none ↔ whitePositions c = [] := by
  simp only [colPosition]
  by_cases hE : whitePositions c = []
  · simp [hE]
  · have hb : (whitePositions c).isEmpty = false := by
      cases hw : whitePositions c with
      | nil => exact absurd hw hE
      | cons a l => rfl
    simp [hb, hE]

theorem fillNans_rawPositions_none_iff (W : ℕ) (edges : EdgeMap) :
    fillNans (rawPositions W edges) = none ↔
      ∀ i, i < W → whitePositions (edges.getD i []) = [] := by
  have hiff : (definedIdxPts 0 (rawPositions W edges)).isEmpty = true ↔
      ∀ i, i < W → whitePositions (edges.getD i []) = [] := by
    rw [List.isEmpty_iff, definedIdxPts_nil_iff]
    constructor
    · intro h i hi
      have hx := h (colPosition (edges.getD i []))
        (by
          rw [rawPositions]
          exact List.mem_map_of_mem _ (List.mem_range.2 hi))
      exact (colPosition_none_iff _).1 hx
    · intro h x hx
      rw [rawPositions] at hx
      obtain ⟨i, hi, rfl⟩ := List.mem_map.1 hx
      exact (colPosition_none_iff _).2 (h i (List.mem_range.1 hi))
  unfold fillNans
  by_cases hE : (definedIdxPts 0 (rawPositions W edges)).isEmpty = true
  · rw [if_pos hE]
    constructor
    · intro _
      exact hiff.1 hE
    · intro _
      rfl
  · rw [if_neg hE]
    constructor
    · intro hcon
      exact absurd hcon (by simp)
    · intro hall
      exact absurd (hiff.2 hall) hE

/-- Claim C5: if every column of the edge map has no edge pixel, extraction
fails with the empty-edge error (the `ValueError` that `np.interp` raises on
an empty sample-point array) instead of returning any signature; if at least
one column has an edge pixel it returns a signature, and the undefined
profile entries are filled by 1-D linear interpolation between the nearest
defined neighbors, with nearest-defined-value extrapolation at the
boundaries. -/
theorem c5_empty_edge_error_and_interpolation (prep_scale : ℕ × ℕ)
    (edges : EdgeMap) :
    (get_edge_identity_vector prep_scale edges = .error .valueError ↔
      ∀ i, i < prep_scale.1 → whitePositions (edges.getD i []) = []) ∧
    ((∃ i, i < prep_scale.1 ∧ whitePositions (edges.getD i []) ≠ []) →
      ∃ sig, get_edge_identity_vector prep_scale edges = .ok sig) ∧
    (∀ filled, fillNans (rawPositions prep_scale.1 edges) = some filled →
      specLinearFill (rawPositions prep_scale.1 edges) filled) := by
  refine ⟨?_, ?_, ?_⟩
  · rw [← fillNans_rawPositions_none_iff prep_scale.1 edges]
    unfold get_edge_identity_vector
    cases hf : fillNans (rawPositions prep_scale.1 edges) with
    | none => simp
    | some filled => simp
  · intro hex
    obtain ⟨i, hi, hne⟩ := hex
    unfold get_edge_identity_vector
    cases hf : fillNans (rawPositions prep_scale.1 edges) with
    | none =>
      have := (fillNans_rawPositions_none_iff prep_scale.1 edges).1 hf i hi
      exact absurd this hne
    | some filled => exact ⟨_, rfl⟩
  · intro filled hf
    exact fillNans_specLinearFill _ _ hf

theorem colPosition_eval_h2top : colPosition [255, 0] = some 0 := by
  rw [colPosition, show whitePositions [255, 0] = [0] from by decide]
  norm_num [listMean, npAround]

theorem colPosition_eval_h2bot : colPosition [0, 255] = some 1 := by
  rw [colPosition, show whitePositions [0, 255] = [1] from by decide]
  norm_num [listMean, npAround]

theorem colPosition_eval_h2blank : colPosition [0, 0] = none := by
  rw [colPosition, show whitePositions [0, 0] = [] from by decide]
  simp

theorem c5_witness :
    get_edge_identity_vector (2, 2) [[0, 0], [0, 0]] = .error .valueError ∧
    specLinearFill (rawPositions 3 [[255, 0], [0, 0], [0, 255]])
      [0, 1/2, 1] := by
  constructor
  · exact (c5_empty_edge_error_and_interpolation (2, 2) [[0, 0], [0, 0]]).1.2
      (by decide)
  · have hraw : rawPositions 3 [[255, 0], [0, 0], [0, 255]]
        = [some 0, none, some 1] := by
      rw [rawPositions, show List.range 3 = [0, 1, 2] from by decide]
      simp [colPosition_eval_h2top, colPosition_eval_h2bot, colPosition_eval_h2blank]
    have hfill : fillNans (rawPositions 3 [[255, 0], [0, 0], [0, 255]])
        = some [0, 1/2, 1] := by
      rw [hraw]
      norm_num [fillNans, definedIdxPts, interpPts,
        show List.range 3 = [0, 1, 2] from by decide]
    exact (c5_empty_edge_error_and_interpolation (3, 2)
      [[255, 0], [0, 0], [0, 255]]).2.2 [0, 1/2, 1] hfill

theorem dictGet_cons {α : Type} (a : String) (b : α) (L : List (String × α))
    (k : String) :
    dictGet ((a, b) :: L) k = if a = k then some b else dictGet L k := by
  by_cases h : a = k
  · simp [dictGet, h]
  · simp [dictGet, h]

theorem dictSet_cons_eq {α : Type} (a : String) (b : α) (rest : List (String × α))
    (k : String) (v : α) (h : a = k) :
    dictSet ((a, b) :: rest) k v
      = (k, v) :: rest.map (fun p => if p.1 == k then (k, v) else p) := by
  subst h
  rw [dictSet, if_pos]
  · simp
  · simp

theorem dictSet_cons_ne {α : Type} (a : String) (b : α) (rest : List (String × α))
    (k : String) (v : α) (h : a ≠ k) :
    dictSet ((a, b) :: rest) k v = (a, b) :: dictSet rest k v := by
  by_cases hR : (rest.any (fun q => q.1 == k)) = true
  · rw [dictSet, if_pos, dictSet, if_pos hR]
    · simp [h]
    · simp [List.any_cons, hR]
  · rw [dictSet, if_neg, dictSet, if_neg hR]
    · simp
    · simp [List.any_cons, hR, h]

theorem dictGet_mapOverwrite_ne {α : Type} (rest : List (String × α))
    (k k' : String) (v : α) (h : k' ≠ k) :
    dictGet (rest.map (fun p => if p.1 == k then (k, v) else p)) k'
      = dictGet rest k' := by
  induction rest with
  | nil => rfl
  | cons q rest' ih =>
    rcases q with ⟨c, d⟩
    by_cases hck : c = k
    · subst hck
      simp only [List.map_cons, beq_self_eq_true, if_true]
      rw [dictGet_cons, dictGet_cons, if_neg (Ne.symm h), if_neg fun hc => h hc.symm]
      exact ih
    · have hb : ((c, d).1 == k) = false := by simp [hck]
      simp only [List.map_cons, hb, Bool.false_eq_true, if_false]
      rw [dictGet_cons, dictGet_cons]
      by_cases hck' : c = k'
      · simp [hck']
      · simp only [hck', if_false]
        exact ih

theorem dictGet_dictSet {α : Type} (d : List (String × α)) (k k' : String)
    (v : α) :
    dictGet (dictSet d k v) k' = if k' = k then some v else dictGet d k' := by
  induction d with
  | nil =>
    by_cases h : k' = k
    · simp [dictSet, dictGet, h]
    · have h2 : ¬k = k' := fun hc => h hc.symm
      simp [dictSet, dictGet, h, h2]
  | cons p rest ih =>
    rcases p with ⟨a, b⟩
    by_cases hak : a = k
    · subst hak
      rw [dictSet_cons_eq a b rest a v rfl, dictGet_cons]
      by_cases h : k' = a
      · subst h
        simp
      · rw [if_neg fun hc => h hc.symm, if_neg h, dictGet_cons, if_neg fun hc => h hc.symm]
        exact dictGet_mapOverwrite_ne rest a k' v h
    · rw [dictSet_cons_ne a b rest k v hak, dictGet_cons, dictGet_cons]
      by_cases hak' : a = k'
      · subst hak'
        rw [if_pos rfl, if_neg, if_pos rfl]
        intro hc
        exact hak hc
      · rw [if_neg hak', ih, if_neg hak']

theorem dictGet_dictSet_self {α : Type} (d : List (String × α)) (k : String)
    (v : α) : dictGet (dictSet d k v) k = some v := by
  rw [dictGet_dictSet, if_pos rfl]

theorem dictGet_dictSet_ne {α : Type} (d : List (String × α)) (k k' : String)
    (v : α) (h : k' ≠ k) : dictGet (dictSet d k v) k' = dictGet d k' := by
  rw [dictGet_dictSet, if_neg h]

theorem dictSet_ne_nil {α : Type} (d : List (String × α)) (k : String) (v : α) :
    dictSet d k v ≠ [] := by
  rcases d with _ | ⟨⟨a, b⟩, rest⟩
  · simp [dictSet]
  · by_cases h : a = k
    · rw [dictSet_cons_eq a b rest k v h]
      simp
    · rw [dictSet_cons_ne a b rest k v h]
      simp

theorem PyHeap.read_write_self (h : PyHeap) (r : ℕ) (d : DB)
    (hr : r < h.cells.length) : (h.write r d).read r = d := by
  show (h.cells.set r d).getD r [] = d
  rw [List.getD_eq_getElem?_getD, List.getElem?_set_self (by simpa using hr)]
  rfl

theorem PyHeap.read_write_ne (h : PyHeap) (r r' : ℕ) (d : DB) (hne : r' ≠ r) :
    (h.write r d).read r' = h.read r' := by
  show (h.cells.set r d).getD r' [] = h.cells.getD r' []
  rw [List.getD_eq_getElem?_getD, List.getElem?_set_ne (Ne.symm hne),
    ← List.getD_eq_getElem?_getD]

theorem build_db_ok_eq (h : PyHeap) (t : TearCompare) (edges : EdgeMap)
    (n : String) (h' : PyHeap) (t' : TearCompare)
    (hok : build_db h t edges n = .ok (h', t')) :
    ∃ sig, get_edge_identity_vector t.prep_scale edges = .ok sig ∧
      h' = h.write t.dbRef (dictSet (h.read t.dbRef) n sig) ∧ t' = t := by
  unfold build_db at hok
  split at hok
  · exact absurd hok (by simp)
  · rename_i sig hsig
    have hpair := Except.ok.inj hok
    injection hpair with e1 e2
    subst e1
    subst e2
    exact ⟨sig, hsig, rfl, rfl⟩

/-- Claim C7: on success, `build_db` only adds or overwrites the collection
entry under `entry_name` with the extracted signature: the instance record
(and with it the match dict) is unchanged, every other entry of the
collection reads as before, and every other heap object is untouched. -/
theorem c7_build_db_frame (h : PyHeap) (t : TearCompare) (edges : EdgeMap)
    (entry_name : String) (h' : PyHeap) (t' : TearCompare)
    (hr : t.dbRef < h.cells.length)
    (hok : build_db h t edges entry_name = .ok (h', t')) :
    t' = t ∧
    ∃ sig, get_edge_identity_vector t.prep_scale edges = .ok sig ∧
      dictGet (h'.read t.dbRef) entry_name = some sig ∧
      (∀ k, k ≠ entry_name →
        dictGet (h'.read t.dbRef) k = dictGet (h.read t.dbRef) k) ∧
      ∀ r, r ≠ t.dbRef → h'.read r = h.read r := by
  obtain ⟨sig, hsig, hh, ht⟩ := build_db_ok_eq h t edges entry_name h' t' hok
  subst hh
  subst ht
  refine ⟨rfl, sig, hsig, ?_, ?_, ?_⟩
  · rw [PyHeap.read_write_self h _ _ hr, dictGet_dictSet_self]
  · intro k hk
    rw [PyHeap.read_write_self h _ _ hr, dictGet_dictSet_ne _ _ _ _ hk]
  · intro r hrne
    exact PyHeap.read_write_ne h _ r _ hrne

theorem build_db_eval_up :
    build_db initialHeap (TearCompare.new none (2, 3))
        [[255, 0, 0], [0, 0, 255]] "a"
      = .ok (⟨[[("a", [-(1 : ℚ)/2, 1/2])]]⟩, TearCompare.new none (2, 3)) := by
  unfold build_db
  rw [show (TearCompare.new none (2, 3)).prep_scale = (2, 3) from rfl,
    get_edge_eval_up]
  rfl

theorem c7_witness :
    TearCompare.new none (2, 3) = TearCompare.new none (2, 3) ∧
    ∃ sig, get_edge_identity_vector (TearCompare.new none (2, 3)).prep_scale
        [[255, 0, 0], [0, 0, 255]] = .ok sig ∧
      dictGet ((⟨[[("a", [-(1 : ℚ)/2, 1/2])]]⟩ : PyHeap).read
          (TearCompare.new none (2, 3)).dbRef) "a" = some sig ∧
      (∀ k, k ≠ "a" →
        dictGet ((⟨[[("a", [-(1 : ℚ)/2, 1/2])]]⟩ : PyHeap).read
            (TearCompare.new none (2, 3)).dbRef) k
          = dictGet (initialHeap.read (TearCompare.new none (2, 3)).dbRef) k) ∧
      ∀ r, r ≠ (TearCompare.new none (2, 3)).dbRef →
        (⟨[[("a", [-(1 : ℚ)/2, 1/2])]]⟩ : PyHeap).read r = initialHeap.read r :=
  c7_build_db_frame initialHeap (TearCompare.new none (2, 3))
    [[255, 0, 0], [0, 0, 255]] "a" _ _ (by decide) build_db_eval_up

/-- Claim C10: two instances constructed without an explicit database
argument alias the single default dict created when the class statement ran,
so an entry stored through one instance is visible through the other. -/
theorem c10_default_db_shared (ps1 ps2 : ℕ × ℕ) (edges : EdgeMap)
    (h' : PyHeap) (t1' : TearCompare)
    (hok : build_db initialHeap (TearCompare.new none ps1) edges "a"
      = .ok (h', t1')) :
    (dictGet (h'.read (TearCompare.new none ps2).dbRef) "a").isSome := by
  obtain ⟨sig, _, hh, _⟩ := build_db_ok_eq _ _ _ _ _ _ hok
  subst hh
  have hrefs : (TearCompare.new none ps2).dbRef
      = (TearCompare.new none ps1).dbRef := rfl
  rw [hrefs, PyHeap.read_write_self _ _ _ (by show (0 : ℕ) < 1; decide),
    dictGet_dictSet_self]
  rfl

theorem c10_witness :
    (dictGet ((⟨[[("a", [-(1 : ℚ)/2, 1/2])]]⟩ : PyHeap).read
      (TearCompare.new none (5, 7)).dbRef) "a").isSome :=
  c10_default_db_shared (2, 3) (5, 7) [[255, 0, 0], [0, 0, 255]] _ _
    build_db_eval_up

/-- Claim C2 refuted on the code: called on an instance whose collection is
empty, `compare_with_db` does not return the empty-database notice — it
raises `AttributeError` at `for key in self.database`, because `__init__`
binds `self.db` and no attribute named `database` ever exists. -/
theorem c2_compare_with_db_empty_attribute_error :
    compare_with_db initialHeap (TearCompare.new none (2, 3))
      [[255, 0, 0], [0, 0, 255]] "a" true = .error .attributeError := by
  unfold compare_with_db
  rw [show (TearCompare.new none (2, 3)).prep_scale = (2, 3) from rfl,
    get_edge_eval_up]

/-- Claim C3 refuted on the code: even with a nonempty collection,
`compare_with_db` never reaches the distance computation — it raises
`AttributeError` at `for key in self.database`. -/
theorem c3_compare_with_db_nonempty_attribute_error :
    compare_with_db ⟨[[("a", [(0 : ℚ), 0])]]⟩ ⟨0, (2, 3), []⟩
      [[255, 0, 0], [0, 0, 255]] "b" true = .error .attributeError := by
  unfold compare_with_db
  rw [show (⟨0, (2, 3), []⟩ : TearCompare).prep_scale = (2, 3) from rfl,
    get_edge_eval_up]

/-- Claim C6 refuted on the code: `compare_db` on a two-entry collection
raises `AttributeError` at `for key1 in self.database` and mutates nothing. -/
theorem c6_compare_db_attribute_error :
    compare_db ⟨[[("a", [(0 : ℚ), 0]), ("b", [(1 : ℚ), 0])]]⟩ ⟨0, (2, 3), []⟩
      = .error .attributeError := rfl

/-- Claim C9 refuted on the code: `save_matches` raises `NameError` because
the module never imports `os`, and the dump statement that the `os` call
guards writes `self.db` — the signature collection — not the matches dict. -/
theorem c9_save_matches_name_error_and_wrong_blob :
    save_matches [] ⟨[[("x", [(0 : ℚ), 0])]]⟩ ⟨0, (2, 3), [("a", "b")]⟩ "m.pkl"
        = .error .nameError ∧
      save_matches_with_os [] ⟨[[("x", [(0 : ℚ), 0])]]⟩
          ⟨0, (2, 3), [("a", "b")]⟩ "m.pkl"
        = [("m.pkl", Blob.dbBlob [("x", [(0 : ℚ), 0])])] :=
  ⟨rfl, rfl⟩

theorem firstMinIdx_eq_none_iff (l : List ℚ) : firstMinIdx l = none ↔ l = [] := by
  cases l with
  | nil => simp [firstMinIdx]
  | cons x xs =>
    constructor
    · intro hcon
      exfalso
      unfold firstMinIdx at hcon
      split at hcon
      · cases hcon
      · split at hcon
        · cases hcon
        · cases hcon
    · intro hcon
      cases hcon

/-- Claim C4 as amended: one successful match-recording by the repaired
`compare_with_db` is mutual at that moment — when the collection is nonempty
and the call returns match name `m` for entry `n`, the updated match dict
sends `n` to `m` and `m` to `n`. Whole-dict symmetry after arbitrary
sequences fails (see the counterexample): an overwrite strands the
overwritten name's former partner. -/
theorem c4_single_recording_mutual (h : PyHeap) (t : TearCompare)
    (edges : EdgeMap) (n m : String) (h' : PyHeap) (t' : TearCompare)
    (b : Bool) (hne : h.read t.dbRef ≠ [])
    (hok : compare_with_db_fixed h t edges n b = .ok (m, h', t')) :
    dictGet t'.matchesDict n = some m ∧ dictGet t'.matchesDict m = some n := by
  unfold compare_with_db_fixed at hok
  split at hok
  · exact absurd hok (by simp)
  · rename_i id_vector hv
    split at hok
    · rename_i mi hmi
      have hinj := Except.ok.inj hok
      injection hinj with e1 erest
      injection erest with e2 e3
      subst e3
      dsimp only
      rw [e1]
      constructor
      · by_cases hnm : n = m
        · rw [hnm, dictGet_dictSet_self]
        · rw [dictGet_dictSet_ne _ _ _ _ hnm, dictGet_dictSet_self]
      · rw [dictGet_dictSet_self]
    · rename_i hmi
      have hnil := (firstMinIdx_eq_none_iff _).1 hmi
      rw [List.map_eq_nil_iff] at hnil
      exact absurd hnil hne

theorem cwdf_step1_eval :
    compare_with_db_fixed
        ⟨[[("a", [-(1 : ℚ)/2, 1/2]), ("b", [(1 : ℚ)/2, -(1 : ℚ)/2])]]⟩
        ⟨0, (2, 3), []⟩ [[255, 0, 0], [0, 0, 255]] "c" true
      = .ok ("a",
          ⟨[[("a", [-(1 : ℚ)/2, 1/2]), ("b", [(1 : ℚ)/2, -(1 : ℚ)/2]),
            ("c", [-(1 : ℚ)/2, 1/2])]]⟩,
          ⟨0, (2, 3), [("c", "a"), ("a", "c")]⟩) := by
  unfold compare_with_db_fixed
  rw [show (⟨0, (2, 3), []⟩ : TearCompare).prep_scale = (2, 3) from rfl,
    get_edge_eval_up]
  norm_num [PyHeap.read, PyHeap.write, dictKeys, dictSet, dictGet, dist2,
    firstMinIdx]
  all_goals decide

theorem cwdf_step2_eval :
    compare_with_db_fixed
        ⟨[[("a", [-(1 : ℚ)/2, 1/2]), ("b", [(1 : ℚ)/2, -(1 : ℚ)/2]),
          ("c", [-(1 : ℚ)/2, 1/2])]]⟩
        ⟨0, (2, 3), [("c", "a"), ("a", "c")]⟩ [[255, 0, 0], [0, 0, 255]] "d" true
      = .ok ("a",
          ⟨[[("a", [-(1 : ℚ)/2, 1/2]), ("b", [(1 : ℚ)/2, -(1 : ℚ)/2]),
            ("c", [-(1 : ℚ)/2, 1/2]), ("d", [-(1 : ℚ)/2, 1/2])]]⟩,
          ⟨0, (2, 3), [("c", "a"), ("a", "d"), ("d", "a")]⟩) := by
  unfold compare_with_db_fixed
  rw [show (⟨0, (2, 3), [("c", "a"), ("a", "c")]⟩ : TearCompare).prep_scale
      = (2, 3) from rfl,
    get_edge_eval_up]
  norm_num [PyHeap.read, PyHeap.write, dictKeys, dictSet, dictGet, dist2,
    firstMinIdx]
  all_goals decide

/-- Claim C4 refuted: after two successive successful match-recordings (run
on the repaired `compare_with_db`, since the method as written cannot succeed
at all), the match dict is asymmetric — it still sends `"c"` to `"a"` while
`"a"` was overwritten to point at `"d"`. -/
theorem c4_counterexample :
    compare_with_db_fixed
        ⟨[[("a", [-(1 : ℚ)/2, 1/2]), ("b", [(1 : ℚ)/2, -(1 : ℚ)/2])]]⟩
        ⟨0, (2, 3), []⟩ [[255, 0, 0], [0, 0, 255]] "c" true
      = .ok ("a",
          ⟨[[("a", [-(1 : ℚ)/2, 1/2]), ("b", [(1 : ℚ)/2, -(1 : ℚ)/2]),
            ("c", [-(1 : ℚ)/2, 1/2])]]⟩,
          ⟨0, (2, 3), [("c", "a"), ("a", "c")]⟩) ∧
    compare_with_db_fixed
        ⟨[[("a", [-(1 : ℚ)/2, 1/2]), ("b", [(1 : ℚ)/2, -(1 : ℚ)/2]),
          ("c", [-(1 : ℚ)/2, 1/2])]]⟩
        ⟨0, (2, 3), [("c", "a"), ("a", "c")]⟩ [[255, 0, 0], [0, 0, 255]] "d" true
      = .ok ("a",
          ⟨[[("a", [-(1 : ℚ)/2, 1/2]), ("b", [(1 : ℚ)/2, -(1 : ℚ)/2]),
            ("c", [-(1 : ℚ)/2, 1/2]), ("d", [-(1 : ℚ)/2, 1/2])]]⟩,
          ⟨0, (2, 3), [("c", "a"), ("a", "d"), ("d", "a")]⟩) ∧
    ¬ matchesSymmetric [("c", "a"), ("a", "d"), ("d", "a")] := by
  refine ⟨cwdf_step1_eval, cwdf_step2_eval, ?_⟩
  intro hsym
  have h1 : dictGet [("c", "a"), ("a", "d"), ("d", "a")] "c" = some "a" := by
    simp [dictGet]
  have h2 := hsym "c" "a" h1
  rw [show dictGet [("c", "a"), ("a", "d"), ("d", "a")] "a" = some "d" from by
    simp [dictGet]] at h2
  have h3 := Option.some.inj h2
  exact absurd h3 (by decide)

theorem c4_witness :
    dictGet (⟨0, (2, 3), [("c", "a"), ("a", "c")]⟩ : TearCompare).matchesDict
        "c" = some "a" ∧
      dictGet (⟨0, (2, 3), [("c", "a"), ("a", "c")]⟩ : TearCompare).matchesDict
        "a" = some "c" :=
  c4_single_recording_mutual
    ⟨[[("a", [-(1 : ℚ)/2, 1/2]), ("b", [(1 : ℚ)/2, -(1 : ℚ)/2])]]⟩
    ⟨0, (2, 3), []⟩ [[255, 0, 0], [0, 0, 255]] "c" "a" _ _ true
    (by simp [PyHeap.read]) cwdf_step1_eval

theorem cwdf_empty_insert_name_error :
    compare_with_db_fixed initialHeap (TearCompare.new none (2, 3))
      [[255, 0, 0], [0, 0, 255]] "a" true = .error .nameError := by
  unfold compare_with_db_fixed
  rw [show (TearCompare.new none (2, 3)).prep_scale = (2, 3) from rfl,
    get_edge_eval_up]
  norm_num [PyHeap.read, PyHeap.write, dictKeys, dictSet, dictGet, dist2,
    firstMinIdx, initialHeap, TearCompare.new, classDefaultRef]

theorem cwdf_empty_noinsert_notice :
    compare_with_db_fixed initialHeap (TearCompare.new none (2, 3))
      [[255, 0, 0], [0, 0, 255]] "a" false
      = .ok (emptyDbNotice, initialHeap, TearCompare.new none (2, 3)) := by
  unfold compare_with_db_fixed
  rw [show (TearCompare.new none (2, 3)).prep_scale = (2, 3) from rfl,
    get_edge_eval_up]
  norm_num [PyHeap.read, PyHeap.write, dictKeys, dictSet, dictGet, dist2,
    firstMinIdx, initialHeap, TearCompare.new, classDefaultRef]

theorem cwdf_tie_breaks_first_seen :
    compare_with_db_fixed
        ⟨[[("a", [-(1 : ℚ)/2, 1/2]), ("b", [-(1 : ℚ)/2, 1/2])]]⟩
        ⟨0, (2, 3), []⟩ [[255, 0, 0], [0, 0, 255]] "c" false
      = .ok ("a", ⟨[[("a", [-(1 : ℚ)/2, 1/2]), ("b", [-(1 : ℚ)/2, 1/2])]]⟩,
          ⟨0, (2, 3), [("c", "a"), ("a", "c")]⟩) := by
  unfold compare_with_db_fixed
  rw [show (⟨0, (2, 3), []⟩ : TearCompare).prep_scale = (2, 3) from rfl,
    get_edge_eval_up]
  norm_num [PyHeap.read, PyHeap.write, dictKeys, dictSet, dictGet, dist2,
    firstMinIdx]
  all_goals decide

theorem compare_db_repaired_small_no_mutation (h : PyHeap) (t : TearCompare)
    (hlt : (h.read t.dbRef).length < 2) :
    compare_db_db_repaired h t = .ok (h, t) := by
  unfold compare_db_db_repaired
  cases hdb : h.read t.dbRef with
  | nil => simp [dictKeys]
  | cons p rest =>
    cases rest with
    | nil => simp [dictKeys]
    | cons q rest' =>
      rw [hdb] at hlt
      simp at hlt
      omega

theorem compare_db_repaired_two_entries_name_error :
    compare_db_db_repaired ⟨[[("a", [(0 : ℚ), 0]), ("b", [(1 : ℚ), 0])]]⟩
      ⟨0, (2, 3), []⟩ = .error .nameError := by
  unfold compare_db_db_repaired
  norm_num [PyHeap.read, dictKeys]
  intro hba
  exact absurd hba (by decide)
